import Mathlib

/-!
Shallow embedding of the session/process lifecycle layer of term-party
(src/main.js) together with the environment handshake of the MCP server
(src/mcp-server.js), and proofs of the specification claims about it.

The embedding models the mutable module-level state of main.js
(`terminals`, `nextId`, `savedTerminals`, `favorites`, `terminalOrder`,
`directoryNames`, `recentExits`) as a single `MainState` record, and each
IPC handler or pty event callback as a pure state transformer.  JavaScript
`Map` objects and plain objects used as dictionaries are modelled as
association lists in insertion order; JS string falsiness (empty string is
falsy) is modelled explicitly wherever the source relies on it.
-/

namespace TermParty

/-- Association-list lookup by key, first binding wins (models JS
`Map.get` / object property read). -/
def alookup {κ α : Type} [DecidableEq κ] : List (κ × α) → κ → Option α
  | [], _ => none
  | p :: rest, k => if p.1 = k then some p.2 else alookup rest k

/-- Association-list update-or-append (models JS `Map.set` / object
property assignment: overwrite in place if the key exists, otherwise
append a fresh binding). -/
def aset {κ α : Type} [DecidableEq κ] : List (κ × α) → κ → α → List (κ × α)
  | [], k, v => [(k, v)]
  | p :: rest, k, v =>
      if p.1 = k then (k, v) :: rest else p :: aset rest k v

/-- Association-list key removal (models JS `Map.delete`). -/
def adelete {κ α : Type} [DecidableEq κ] : List (κ × α) → κ → List (κ × α)
  | [], _ => []
  | p :: rest, k => if p.1 = k then adelete rest k else p :: adelete rest k

/-- Last path segment, ignoring trailing separators (models Node
`path.basename` on POSIX paths; `basename "" = ""`). -/
def basename (p : String) : String :=
  let r := (p.data.reverse.dropWhile (fun c => c = '/')).takeWhile (fun c => c ≠ '/')
  String.mk r.reverse

/-- MAX_RECENT_EXITS from src/main.js line 17. -/
def MAX_RECENT_EXITS : Nat := 20

/-- TAIL_BUFFER_SIZE from src/main.js line 18. -/
def TAIL_BUFFER_SIZE : Nat := 4096

/-- One live session as stored in the `terminals` map
(src/main.js line 317); the pty handle and lastDataTime are not modelled. -/
structure Terminal where
  cwd : String
  spawnName : String
  tailBuffer : List Char
  deriving Repr, DecidableEq

/-- One entry of `recentExits` (src/main.js line 309). -/
structure ExitRecord where
  id : Nat
  title : String
  exitCode : Int
  timestamp : Nat
  deriving Repr, DecidableEq

/-- The mutable module-level state of src/main.js.  `spawnClosures`
records, for every session ever successfully spawned, the `title` value
captured by its `onExit` closure at spawn time (src/main.js lines 275,
302-304); an entry is consumed when the one-shot exit handler fires. -/
structure MainState where
  terminals : List (Nat × Terminal)
  nextId : Nat
  savedTerminals : List String
  favorites : List String
  terminalOrder : List Nat
  directoryNames : List (String × String)
  recentExits : List ExitRecord
  spawnClosures : List (Nat × String)
  deriving Repr, DecidableEq

/-- State at startup: ghosts, favorites and directory names are loaded
from disk (empty on absent or malformed files), `terminals` is empty,
`nextId` is 1 and `terminalOrder` is seeded from the (empty) live map
(src/main.js lines 8-13, 240-244). -/
def initialState (ghosts favorites : List String)
    (names : List (String × String)) : MainState :=
  { terminals := []
    nextId := 1
    savedTerminals := ghosts
    favorites := favorites
    terminalOrder := []
    directoryNames := names
    recentExits := []
    spawnClosures := [] }

/-- resolveDirectoryName from src/main.js lines 122-124:
`directoryNames[cwd] || path.basename(cwd || '')`.  An empty stored name
is falsy in JS and falls through to the basename. -/
def resolveDirectoryName (names : List (String × String)) (cwd : String) :
    String :=
  match alookup names cwd with
  | some n => if n = "" then basename cwd else n
  | none => basename cwd

/-- Whether an id refers to a live session (`terminals.get(id)` truthy). -/
def isLive (s : MainState) (id : Nat) : Bool :=
  (alookup s.terminals id).isSome

/-- getTerminalEnv from src/main.js lines 205-211: copy the host
environment and, when the terminal name is truthy (non-empty), set
TERM_PARTY_NAME to it. -/
def getTerminalEnv (hostEnv : List (String × String)) (terminalName : String) :
    List (String × String) :=
  if terminalName = "" then hostEnv
  else aset hostEnv "TERM_PARTY_NAME" terminalName

/-- The environment handed to `pty.spawn` by the create-terminal handler
(src/main.js lines 274-281): the terminal name passed to getTerminalEnv is
the display title resolved for the effective working directory. -/
def spawnEnv (s : MainState) (cwd homedir : String)
    (hostEnv : List (String × String)) : List (String × String) :=
  let resolvedCwd := if cwd = "" then homedir else cwd
  getTerminalEnv hostEnv (resolveDirectoryName s.directoryNames resolvedCwd)

/-- Scratchpad-directory discovery of the MCP server (src/mcp-server.js
lines 24-28): it reads TERM_PARTY_SCRATCHPAD from its environment and
aborts when the variable is absent or empty (falsy). -/
def mcpScratchpadDir (env : List (String × String)) : Option String :=
  match alookup env "TERM_PARTY_SCRATCHPAD" with
  | some v => if v = "" then none else some v
  | none => none

/-- Result of a successful create-terminal call (src/main.js line 320). -/
structure CreateResult where
  id : Nat
  cwd : String
  title : String
  deriving Repr, DecidableEq

/-- create-terminal handler (src/main.js lines 271-321).  `spawnOk`
models whether `pty.spawn` succeeds; on a spawn failure the thrown error
propagates to the caller (modelled as `Except.error ()`) after `nextId`
has already been incremented, and nothing is registered. -/
def createTerminal (s : MainState) (cwd homedir : String) (spawnOk : Bool) :
    MainState × Except Unit CreateResult :=
  let id := s.nextId
  let s1 := { s with nextId := s.nextId + 1 }
  let resolvedCwd := if cwd = "" then homedir else cwd
  let title := resolveDirectoryName s1.directoryNames resolvedCwd
  if spawnOk then
    ({ s1 with
        terminals := s1.terminals ++ [(id, ⟨resolvedCwd, title, []⟩)]
        terminalOrder := s1.terminalOrder ++ [id]
        spawnClosures := s1.spawnClosures ++ [(id, title)] },
      Except.ok ⟨id, resolvedCwd, title⟩)
  else
    (s1, Except.error ())

/-- The id carried by a successful create-terminal result. -/
def resultId : Except Unit CreateResult → Option Nat
  | Except.ok r => some r.id
  | Except.error _ => none

/-- terminal-input handler (src/main.js lines 323-326).  The Bool records
whether anything was forwarded to a pty (`pty.write` issued). -/
def terminalInput (s : MainState) (id : Nat) (_data : String) :
    MainState × Bool :=
  match alookup s.terminals id with
  | some _ => (s, true)
  | none => (s, false)

/-- terminal-resize handler (src/main.js lines 328-331).  The Bool records
whether a `pty.resize` was issued. -/
def terminalResize (s : MainState) (id : Nat) (_cols _rows : Nat) :
    MainState × Bool :=
  match alookup s.terminals id with
  | some _ => (s, true)
  | none => (s, false)

/-- kill-terminal handler (src/main.js lines 333-342): if the id is live,
signal the process and remove the session from the map and the order
list; always answer `true`. -/
def killTerminal (s : MainState) (id : Nat) : MainState × Bool :=
  match alookup s.terminals id with
  | some _ =>
      ({ s with
          terminals := adelete s.terminals id
          terminalOrder := s.terminalOrder.filter (fun oid => oid ≠ id) },
        true)
  | none => (s, true)

/-- Exit-record title resolution (src/main.js lines 303-304): resolve the
title from the last-known working directory while the session is still in
the map, else fall back to the spawn-time captured title. -/
def exitTitleOf (s : MainState) (id : Nat) (spawnTitle : String) : String :=
  match alookup s.terminals id with
  | some t => resolveDirectoryName s.directoryNames t.cwd
  | none => spawnTitle

/-- Head-insertion into recentExits with truncation (src/main.js lines
309-310): `unshift` the record, then `pop` the oldest when the bound is
exceeded. -/
def pushExit (history : List ExitRecord) (r : ExitRecord) : List ExitRecord :=
  let h := r :: history
  if MAX_RECENT_EXITS < h.length then h.dropLast else h

/-- The `onExit` callback of a spawned session (src/main.js lines
302-315), fired at most once per spawned session: the guard on
`spawnClosures` models that the handler exists only for sessions that
were actually spawned, and the entry is consumed so the one-shot handler
cannot fire twice. -/
def processExit (s : MainState) (id : Nat) (exitCode : Int) (now : Nat) :
    MainState :=
  match alookup s.spawnClosures id with
  | none => s
  | some spawnTitle =>
      let r : ExitRecord := ⟨id, exitTitleOf s id spawnTitle, exitCode, now⟩
      { s with
          terminals := adelete s.terminals id
          terminalOrder := s.terminalOrder.filter (fun oid => oid ≠ id)
          spawnClosures := adelete s.spawnClosures id
          recentExits := pushExit s.recentExits r }

/-- set-terminal-order handler (src/main.js lines 364-368): replace the
order with the request filtered to ids that are still live. -/
def setTerminalOrder (s : MainState) (order : List Nat) : MainState :=
  { s with terminalOrder := order.filter (fun id => isLive s id) }

/-- rename-directory handler (src/main.js lines 397-403): overwrite the
mapping only when both the path and the new name are truthy (non-empty);
always answer `true`. -/
def renameDirectory (s : MainState) (cwd newName : String) :
    MainState × Bool :=
  if cwd ≠ "" ∧ newName ≠ "" then
    ({ s with directoryNames := aset s.directoryNames cwd newName }, true)
  else
    (s, true)

/-- Tail-buffer append of the `onData` callback (src/main.js lines
285-290): concatenate, then keep only the last TAIL_BUFFER_SIZE
characters (`slice(-TAIL_BUFFER_SIZE)`). -/
def tailAppend (buf data : List Char) : List Char :=
  let b := buf ++ data
  if TAIL_BUFFER_SIZE < b.length then b.drop (b.length - TAIL_BUFFER_SIZE)
  else b

/-- One entry of the get-terminals listing (src/main.js lines 344-362);
ghost entries carry no live id. -/
structure SessionView where
  liveId : Option Nat
  cwd : String
  title : String
  ghost : Bool
  deriving Repr, DecidableEq

/-- get-terminals handler (src/main.js lines 344-362): ordered live
sessions first, then live sessions missing from the order as a fallback,
then ghosts. -/
def getTerminals (s : MainState) : List SessionView :=
  (s.terminalOrder.filterMap (fun id =>
      (alookup s.terminals id).map (fun t =>
        ⟨some id, t.cwd, resolveDirectoryName s.directoryNames t.cwd, false⟩)))
    ++ ((s.terminals.filter (fun p => ¬ s.terminalOrder.contains p.1)).map
        (fun p =>
          ⟨some p.1, p.2.cwd, resolveDirectoryName s.directoryNames p.2.cwd,
            false⟩))
    ++ s.savedTerminals.map (fun c =>
        ⟨none, c, resolveDirectoryName s.directoryNames c, true⟩)

/-- get-favorites handler (src/main.js lines 407-409): each favorite is
reported with its directory name resolved through the registry. -/
def getFavorites (s : MainState) : List (String × String) :=
  s.favorites.map (fun c => (resolveDirectoryName s.directoryNames c, c))

/-- The operations that can act on the main-process state, for reasoning
about arbitrary interleavings: IPC requests plus the asynchronous pty
exit events. -/
inductive Op where
  | create (cwd homedir : String) (spawnOk : Bool)
  | kill (id : Nat)
  | exitEv (id : Nat) (exitCode : Int) (now : Nat)
  | setOrder (ids : List Nat)
  | renameDir (cwd newName : String)
  | input (id : Nat) (data : String)
  | resizeEv (id : Nat) (cols rows : Nat)
  deriving Repr, DecidableEq

/-- Effect of one operation on the state. -/
def step (s : MainState) : Op → MainState
  | Op.create cwd homedir spawnOk => (createTerminal s cwd homedir spawnOk).1
  | Op.kill id => (killTerminal s id).1
  | Op.exitEv id code now => processExit s id code now
  | Op.setOrder ids => setTerminalOrder s ids
  | Op.renameDir cwd newName => (renameDirectory s cwd newName).1
  | Op.input id data => (terminalInput s id data).1
  | Op.resizeEv id c r => (terminalResize s id c r).1

/-- Run a sequence of operations. -/
def run (s : MainState) (ops : List Op) : MainState :=
  ops.foldl step s

/-- Ids returned by the successful create-terminal calls of a run, in
call order. -/
def createdIds : MainState → List Op → List Nat
  | _, [] => []
  | s, op :: rest =>
      (match op with
        | Op.create cwd homedir spawnOk =>
            match resultId (createTerminal s cwd homedir spawnOk).2 with
            | some id => [id]
            | none => []
        | _ => []) ++ createdIds (step s op) rest

/-- Exit records produced by a run, in the order they were prepended to
recentExits (oldest first). -/
def pushedRecords : MainState → List Op → List ExitRecord
  | _, [] => []
  | s, op :: rest =>
      (match op with
        | Op.exitEv id code now =>
            match alookup s.spawnClosures id with
            | some spawnTitle =>
                [⟨id, exitTitleOf s id spawnTitle, code, now⟩]
            | none => []
        | _ => []) ++ pushedRecords (step s op) rest

/-- The OrderIndex invariant claimed by the spec: the order list holds
exactly the live ids, each exactly once. -/
def orderExact (s : MainState) : Prop :=
  s.terminalOrder.Nodup ∧ ∀ id, id ∈ s.terminalOrder ↔ isLive s id = true

/-- Condition on a run under which the OrderIndex invariant is
maintained: every set-terminal-order request lists each then-live id
exactly once (dead ids may appear freely; they are dropped). -/
def goodOrders : MainState → List Op → Prop
  | _, [] => True
  | s, op :: rest =>
      (match op with
        | Op.setOrder ids =>
            ∀ id ∈ s.terminals.map Prod.fst, ids.count id = 1
        | _ => True) ∧ goodOrders (step s op) rest

/-- Well-formedness invariant of the main-process state: live ids are
below the counter, the live map has no duplicate keys, and the order
index holds exactly the live ids without duplicates. -/
def Inv (s : MainState) : Prop :=
  (∀ p ∈ s.terminals, p.1 < s.nextId) ∧
  (s.terminals.map Prod.fst).Nodup ∧
  s.terminalOrder.Nodup ∧
  (∀ id, id ∈ s.terminalOrder ↔ isLive s id = true)

/-! Helper lemmas about the association-list primitives. -/

theorem alookup_append {κ α : Type} [DecidableEq κ] (l m : List (κ × α))
    (k : κ) :
    alookup (l ++ m) k =
      match alookup l k with
      | some v => some v
      | none => alookup m k := by
  induction l with
  | nil => simp [alookup]
  | cons p rest ih =>
      by_cases h : p.1 = k
      · simp [alookup, h]
      · simp [alookup, h, ih]

theorem alookup_aset_self {κ α : Type} [DecidableEq κ] (l : List (κ × α))
    (k : κ) (v : α) : alookup (aset l k v) k = some v := by
  induction l with
  | nil => simp [aset, alookup]
  | cons p rest ih =>
      by_cases h : p.1 = k
      · simp [aset, h, alookup]
      · simp [aset, h, alookup, ih]

theorem alookup_aset_ne {κ α : Type} [DecidableEq κ] (l : List (κ × α))
    (k k2 : κ) (v : α) (h : k ≠ k2) :
    alookup (aset l k v) k2 = alookup l k2 := by
  induction l with
  | nil => simp [aset, alookup, h]
  | cons p rest ih =>
      by_cases hp : p.1 = k
      · simp [aset, hp, alookup, h]
      · simp [aset, hp, alookup, ih]

theorem aset_aset_self {κ α : Type} [DecidableEq κ] (l : List (κ × α))
    (k : κ) (v w : α) : aset (aset l k v) k w = aset l k w := by
  induction l with
  | nil => simp [aset, alookup]
  | cons p rest ih =>
      by_cases hp : p.1 = k
      · simp [aset, hp, alookup]
      · simp [aset, hp, alookup, ih]

theorem alookup_adelete_self {κ α : Type} [DecidableEq κ] (l : List (κ × α))
    (k : κ) : alookup (adelete l k) k = none := by
  induction l with
  | nil => simp [adelete, alookup]
  | cons p rest ih =>
      by_cases hp : p.1 = k
      · simpa [adelete, hp] using ih
      · simpa [adelete, hp, alookup] using ih

theorem alookup_adelete_ne {κ α : Type} [DecidableEq κ] (l : List (κ × α))
    (k k2 : κ) (h : k ≠ k2) :
    alookup (adelete l k) k2 = alookup l k2 := by
  induction l with
  | nil => simp [adelete, alookup]
  | cons p rest ih =>
      by_cases hp : p.1 = k
      · have hp2 : p.1 ≠ k2 := by rw [hp]; exact h
        simp [adelete, hp, alookup, hp2, h, ih]
      · simp [adelete, hp, alookup, ih]

theorem alookup_isSome_iff_mem_keys {κ α : Type} [DecidableEq κ]
    (l : List (κ × α)) (k : κ) :
    (alookup l k).isSome = true ↔ k ∈ l.map Prod.fst := by
  induction l with
  | nil => simp [alookup]
  | cons p rest ih =>
      by_cases hp : p.1 = k
      · simp [alookup, hp]
      · simp [alookup, hp, ih, Ne.symm hp]

theorem resolveDirectoryName_aset_self (names : List (String × String))
    (cwd n : String) (hn : n ≠ "") :
    resolveDirectoryName (aset names cwd n) cwd = n := by
  simp [resolveDirectoryName, alookup_aset_self, hn]

theorem pushExit_head (h : List ExitRecord) (r : ExitRecord) :
    (pushExit h r).head? = some r := by
  simp only [pushExit]
  split
  · rename_i hlt
    cases h with
    | nil => simp [MAX_RECENT_EXITS] at hlt
    | cons a l => simp [List.dropLast_cons₂]
  · simp

theorem getTerminals_title_resolved (s : MainState) :
    ∀ v ∈ getTerminals s,
      v.title = resolveDirectoryName s.directoryNames v.cwd := by
  intro v hv
  simp only [getTerminals, List.mem_append] at hv
  rcases hv with (hv | hv) | hv
  · rcases List.mem_filterMap.mp hv with ⟨id, _, hmap⟩
    cases halo : alookup s.terminals id with
    | none => rw [halo] at hmap; simp at hmap
    | some t => rw [halo] at hmap; simp at hmap; rw [← hmap]
  · rcases List.mem_map.mp hv with ⟨p, _, rfl⟩; rfl
  · rcases List.mem_map.mp hv with ⟨c, _, rfl⟩; rfl

theorem tailAppend_drop (l d : List Char) :
    tailAppend (l.drop (l.length - TAIL_BUFFER_SIZE)) d
      = (l ++ d).drop ((l ++ d).length - TAIL_BUFFER_SIZE) := by
  have hle : l.length - TAIL_BUFFER_SIZE ≤ l.length := Nat.sub_le _ _
  have hsplit : l.drop (l.length - TAIL_BUFFER_SIZE) ++ d
      = (l ++ d).drop (l.length - TAIL_BUFFER_SIZE) :=
    (List.drop_append_of_le_length hle).symm
  simp only [tailAppend, hsplit]
  split
  · rename_i hgt
    rw [List.drop_drop]
    have hidx : l.length - TAIL_BUFFER_SIZE +
        (((l ++ d).drop (l.length - TAIL_BUFFER_SIZE)).length
          - TAIL_BUFFER_SIZE)
        = (l ++ d).length - TAIL_BUFFER_SIZE := by
      simp only [List.length_drop, List.length_append] at hgt ⊢
      omega
    rw [hidx]
  · rename_i hng
    have hidx : l.length - TAIL_BUFFER_SIZE
        = (l ++ d).length - TAIL_BUFFER_SIZE := by
      simp only [List.length_drop, List.length_append] at hng ⊢
      omega
    rw [hidx]

theorem tailAppend_foldl (chunks : List (List Char)) :
    ∀ l : List Char,
      chunks.foldl tailAppend (l.drop (l.length - TAIL_BUFFER_SIZE))
        = (l ++ chunks.flatten).drop
            ((l ++ chunks.flatten).length - TAIL_BUFFER_SIZE) := by
  induction chunks with
  | nil => intro l; simp
  | cons c cs ih =>
      intro l
      simp only [List.foldl_cons, List.flatten_cons]
      rw [tailAppend_drop l c, ih (l ++ c)]
      simp [List.append_assoc]

/-! Claim theorems. -/

/-- C3: after every sequence of appends (hence after each individual
append, since every prefix of a sequence is itself a sequence), the tail
buffer holds at most TAIL_BUFFER_SIZE characters and equals the last
TAIL_BUFFER_SIZE characters of everything appended; when the total
appended length is within the bound, nothing is truncated and the buffer
is the exact concatenation. -/
theorem tailBuffer_bound (chunks : List (List Char)) :
    (chunks.foldl tailAppend []).length ≤ TAIL_BUFFER_SIZE ∧
    chunks.foldl tailAppend []
      = chunks.flatten.drop (chunks.flatten.length - TAIL_BUFFER_SIZE) ∧
    (chunks.flatten.length ≤ TAIL_BUFFER_SIZE →
      chunks.foldl tailAppend [] = chunks.flatten) ∧
    (TAIL_BUFFER_SIZE < chunks.flatten.length →
      chunks.foldl tailAppend []
        = chunks.flatten.drop (chunks.flatten.length - TAIL_BUFFER_SIZE)) := by
  have hmain : chunks.foldl tailAppend []
      = chunks.flatten.drop (chunks.flatten.length - TAIL_BUFFER_SIZE) := by
    simpa using tailAppend_foldl chunks []
  refine ⟨?_, hmain, ?_, fun _ => hmain⟩
  · rw [hmain]
    simp only [List.length_drop]
    omega
  · intro hle
    rw [hmain]
    have h0 : chunks.flatten.length - TAIL_BUFFER_SIZE = 0 := by omega
    rw [h0, List.drop_zero]

/-- Witness for C3: a short append sequence is kept verbatim, and an
overlong one is truncated to the last TAIL_BUFFER_SIZE characters. -/
theorem tailBuffer_bound_witness :
    ((([[Char.ofNat 97, Char.ofNat 98], [Char.ofNat 99]] :
          List (List Char)).flatten.length ≤ TAIL_BUFFER_SIZE) ∧
      ([[Char.ofNat 97, Char.ofNat 98], [Char.ofNat 99]] :
          List (List Char)).foldl tailAppend []
        = ([[Char.ofNat 97, Char.ofNat 98], [Char.ofNat 99]] :
            List (List Char)).flatten) ∧
    ((TAIL_BUFFER_SIZE <
        ([List.replicate 4097 (Char.ofNat 97)] :
          List (List Char)).flatten.length) ∧
      ([List.replicate 4097 (Char.ofNat 97)] :
          List (List Char)).foldl tailAppend []
        = ([List.replicate 4097 (Char.ofNat 97)] :
            List (List Char)).flatten.drop
            (([List.replicate 4097 (Char.ofNat 97)] :
                List (List Char)).flatten.length - TAIL_BUFFER_SIZE)) := by
  have hlen : TAIL_BUFFER_SIZE <
      ([List.replicate 4097 (Char.ofNat 97)] :
        List (List Char)).flatten.length := by
    rw [List.flatten_cons, List.flatten_nil, List.append_nil,
      List.length_replicate]
    decide
  exact ⟨⟨by decide, (tailBuffer_bound _).2.2.1 (by decide)⟩,
    ⟨hlen, (tailBuffer_bound _).2.2.2 hlen⟩⟩

/-- C6: killing an id that is not live is a no-op returning success, and
writing input to or resizing a dead id is a silent no-op that touches no
pty and leaves the whole main-process state (live map, order, ghosts,
favorites, exit history, name registry) unchanged. -/
theorem stale_id_operations_noop (s : MainState) (id : Nat) (data : String)
    (cols rows : Nat) (h : isLive s id = false) :
    killTerminal s id = (s, true) ∧
    terminalInput s id data = (s, false) ∧
    terminalResize s id cols rows = (s, false) := by
  have h0 : alookup s.terminals id = none := by
    cases hl : alookup s.terminals id
    · rfl
    · rw [isLive, hl] at h; simp at h
  exact ⟨by simp [killTerminal, h0], by simp [terminalInput, h0],
    by simp [terminalResize, h0]⟩

/-- Witness for C6 at the empty startup state and the dead id 7. -/
theorem stale_id_operations_noop_witness :
    isLive (initialState [] [] []) 7 = false ∧
    killTerminal (initialState [] [] []) 7 = (initialState [] [] [], true) ∧
    terminalInput (initialState [] [] []) 7 "x" = (initialState [] [] [], false) ∧
    terminalResize (initialState [] [] []) 7 80 24
      = (initialState [] [] [], false) := by
  have h := stale_id_operations_noop (initialState [] [] []) 7 "x" 80 24
    (by decide)
  exact ⟨by decide, h.1, h.2.1, h.2.2⟩

/-- C7: createSession fails exactly when process spawning fails, the
failure propagates as an error to the caller, and on failure the live
map, the order index and the spawn bookkeeping are untouched — no
half-initialized session becomes visible. -/
theorem createSession_failure_propagates (s : MainState)
    (cwd homedir : String) :
    (createTerminal s cwd homedir false).2 = Except.error () ∧
    (createTerminal s cwd homedir false).1.terminals = s.terminals ∧
    (createTerminal s cwd homedir false).1.terminalOrder = s.terminalOrder ∧
    (createTerminal s cwd homedir false).1.spawnClosures = s.spawnClosures ∧
    ∀ spawnOk : Bool,
      ((createTerminal s cwd homedir spawnOk).2 = Except.error ()
        ↔ spawnOk = false) := by
  refine ⟨rfl, rfl, rfl, rfl, ?_⟩
  intro spawnOk
  cases spawnOk <;> simp [createTerminal]

/-- C10: a createSession whose spawn fails still increments the id
counter, so the consumed id is skipped by the next successful create and
the sequence of successfully created ids can have gaps (concretely:
create, failed create, create yields ids 1 and 3). -/
theorem createSession_failed_id_consumed (s : MainState)
    (cwd homedir cwd2 homedir2 : String) :
    (createTerminal s cwd homedir false).1.nextId = s.nextId + 1 ∧
    resultId (createTerminal s cwd homedir false).2 = none ∧
    resultId
      (createTerminal (createTerminal s cwd homedir false).1 cwd2 homedir2
        true).2 = some (s.nextId + 1) ∧
    createdIds (initialState [] [] [])
      [Op.create "/a" "/h" true, Op.create "/b" "/h" false,
        Op.create "/c" "/h" true] = [1, 3] := by
  refine ⟨rfl, rfl, ?_, by decide⟩
  simp [createTerminal, resultId]

/-- C5 counterexample: at a concrete host environment, the environment of
a spawned session is the host environment plus only TERM_PARTY_NAME
holding the display title; the MCP server (which requires
TERM_PARTY_SCRATCHPAD to locate the shared scratch directory) finds no
scratch-directory path in it. -/
theorem spawned_env_no_scratchpad :
    spawnEnv (initialState [] [] []) "/tmp/a" "/home/u"
        [("SHELL", "/bin/bash")]
      = [("SHELL", "/bin/bash"), ("TERM_PARTY_NAME", "a")] ∧
    mcpScratchpadDir (spawnEnv (initialState [] [] []) "/tmp/a" "/home/u"
        [("SHELL", "/bin/bash")]) = none := by
  decide

/-- C5 amended: every spawned session's environment is the host
environment extended with the single variable TERM_PARTY_NAME holding the
session's resolved display title (when that title is non-empty); no other
variable is added, and in particular no TERM_PARTY_SCRATCHPAD
scratch-directory path is introduced for the MCP server to discover. -/
theorem spawned_env_adds_only_terminal_name (s : MainState)
    (cwd homedir : String) (hostEnv : List (String × String))
    (ht : resolveDirectoryName s.directoryNames
      (if cwd = "" then homedir else cwd) ≠ "") :
    alookup (spawnEnv s cwd homedir hostEnv) "TERM_PARTY_NAME"
      = some (resolveDirectoryName s.directoryNames
          (if cwd = "" then homedir else cwd)) ∧
    (∀ k, k ≠ "TERM_PARTY_NAME" →
      alookup (spawnEnv s cwd homedir hostEnv) k = alookup hostEnv k) ∧
    (alookup hostEnv "TERM_PARTY_SCRATCHPAD" = none →
      mcpScratchpadDir (spawnEnv s cwd homedir hostEnv) = none) := by
  have hrw : spawnEnv s cwd homedir hostEnv
      = aset hostEnv "TERM_PARTY_NAME"
          (resolveDirectoryName s.directoryNames
            (if cwd = "" then homedir else cwd)) := by
    simp [spawnEnv, getTerminalEnv, ht]
  refine ⟨?_, ?_, ?_⟩
  · rw [hrw]; exact alookup_aset_self _ _ _
  · intro k hk
    rw [hrw]
    exact alookup_aset_ne _ _ _ _ (fun hs => hk hs.symm)
  · intro hnone
    have hne : ("TERM_PARTY_NAME" : String) ≠ "TERM_PARTY_SCRATCHPAD" := by
      decide
    rw [mcpScratchpadDir, hrw, alookup_aset_ne _ _ _ _ hne, hnone]

/-- Witness for C5 amended at a concrete state and host environment. -/
theorem spawned_env_adds_only_terminal_name_witness :
    resolveDirectoryName (initialState [] [] []).directoryNames
        (if "/tmp/a" = "" then "/home/u" else "/tmp/a") ≠ "" ∧
    alookup (spawnEnv (initialState [] [] []) "/tmp/a" "/home/u"
        [("SHELL", "/bin/bash")]) "TERM_PARTY_NAME"
      = some (resolveDirectoryName (initialState [] [] []).directoryNames
          (if "/tmp/a" = "" then "/home/u" else "/tmp/a")) ∧
    mcpScratchpadDir (spawnEnv (initialState [] [] []) "/tmp/a" "/home/u"
        [("SHELL", "/bin/bash")]) = none := by
  have h := spawned_env_adds_only_terminal_name (initialState [] [] [])
    "/tmp/a" "/home/u" [("SHELL", "/bin/bash")] (by decide)
  exact ⟨by decide, h.1, h.2.2 (by decide)⟩

/-- C8 counterexample: renaming a directory to the empty string is a
silent no-op — the previous mapping survives and resolve still returns
the old name, not the requested (empty) one. -/
theorem renameDirectory_empty_name_noop :
    (renameDirectory
        ((renameDirectory (initialState [] [] []) "/tmp/a" "Old").1)
        "/tmp/a" "").1
      = (renameDirectory (initialState [] [] []) "/tmp/a" "Old").1 ∧
    resolveDirectoryName
        ((renameDirectory
            ((renameDirectory (initialState [] [] []) "/tmp/a" "Old").1)
            "/tmp/a" "").1).directoryNames "/tmp/a" = "Old" ∧
    ("Old" : String) ≠ "" := by
  decide

/-- C8 amended: for every non-empty path and non-empty new name,
renameDirectory overwrites the mapping unconditionally (idempotent,
last-write-wins) and resolve — hence the title reported for every live
session, ghost and favorite whose working directory equals that path —
immediately returns the new name; with an empty path or empty new name
the handler is a no-op. -/
theorem renameDirectory_last_write_wins (s : MainState) (cwd name : String)
    (hc : cwd ≠ "") (hn : name ≠ "") :
    alookup ((renameDirectory s cwd name).1).directoryNames cwd = some name ∧
    resolveDirectoryName ((renameDirectory s cwd name).1).directoryNames cwd
      = name ∧
    renameDirectory ((renameDirectory s cwd name).1) cwd name
      = ((renameDirectory s cwd name).1, true) ∧
    (∀ n2, n2 ≠ "" →
      resolveDirectoryName
        ((renameDirectory ((renameDirectory s cwd name).1) cwd
            n2).1).directoryNames cwd = n2) ∧
    (∀ v ∈ getTerminals ((renameDirectory s cwd name).1), v.cwd = cwd →
      v.title = name) ∧
    (∀ p ∈ getFavorites ((renameDirectory s cwd name).1), p.2 = cwd →
      p.1 = name) := by
  have hs1 : (renameDirectory s cwd name).1
      = { s with directoryNames := aset s.directoryNames cwd name } := by
    simp [renameDirectory, hc, hn]
  refine ⟨?_, ?_, ?_, ?_, ?_, ?_⟩
  · rw [hs1]; exact alookup_aset_self _ _ _
  · rw [hs1]; exact resolveDirectoryName_aset_self _ _ _ hn
  · rw [hs1]
    simp [renameDirectory, hc, hn, aset_aset_self]
  · intro n2 hn2
    rw [hs1]
    simp only [renameDirectory, hc, hn2, ne_eq, not_false_iff, and_self,
      if_true, reduceIte]
    exact resolveDirectoryName_aset_self _ _ _ hn2
  · intro v hv hvcwd
    have := getTerminals_title_resolved _ v hv
    rw [this, hvcwd, hs1]
    exact resolveDirectoryName_aset_self _ _ _ hn
  · intro p hp hpcwd
    rcases List.mem_map.mp hp with ⟨c, _, rfl⟩
    simp only at hpcwd
    rw [hpcwd] at *
    simp only [hs1]
    exact resolveDirectoryName_aset_self _ _ _ hn

/-- Witness for C8 amended at a concrete state and rename. -/
theorem renameDirectory_last_write_wins_witness :
    ("/tmp/a" : String) ≠ "" ∧ ("Alpha" : String) ≠ "" ∧
    resolveDirectoryName
      ((renameDirectory (initialState [] [] []) "/tmp/a"
          "Alpha").1).directoryNames "/tmp/a" = "Alpha" := by
  have h := renameDirectory_last_write_wins (initialState [] [] [])
    "/tmp/a" "Alpha" (by decide) (by decide)
  exact ⟨by decide, by decide, h.2.1⟩

/-- C1 counterexample: create a session at /tmp/a (title "a"), rename the
directory to "Alpha" while it is live, kill it via the kill handler, then
process the exit event — the recorded exit title is the spawn-time
snapshot "a", not the renamed "Alpha" claimed by the spec. -/
theorem killed_session_exit_title_snapshot :
    (run (initialState [] [] [])
        [Op.create "/tmp/a" "/home/u" true, Op.renameDir "/tmp/a" "Alpha",
          Op.kill 1, Op.exitEv 1 0 100]).recentExits
      = [⟨1, "a", 0, 100⟩] ∧
    ("a" : String) ≠ "Alpha" := by
  decide

/-- C1 amended: when the exit event fires while the session is still
registered (spontaneous exit), the exit record's title is resolved
through the directory-name registry at exit time, so a prior rename is
reflected; when the session was already removed by the kill handler, the
exit record instead carries the spawn-time captured title. -/
theorem exit_title_rename_semantics (s : MainState) (id : Nat) (t : Terminal)
    (st n : String) (code : Int) (now : Nat)
    (hlive : alookup s.terminals id = some t)
    (hcl : alookup s.spawnClosures id = some st)
    (hcwd : t.cwd ≠ "") (hn : n ≠ "") :
    ((processExit ((renameDirectory s t.cwd n).1) id code now).recentExits.head?
      = some ⟨id, n, code, now⟩) ∧
    ((processExit ((killTerminal ((renameDirectory s t.cwd n).1) id).1) id
        code now).recentExits.head? = some ⟨id, st, code, now⟩) := by
  have hs1 : (renameDirectory s t.cwd n).1
      = { s with directoryNames := aset s.directoryNames t.cwd n } := by
    simp [renameDirectory, hcwd, hn]
  constructor
  · rw [hs1]
    simp only [processExit, hcl, exitTitleOf, hlive]
    rw [resolveDirectoryName_aset_self _ _ _ hn]
    exact pushExit_head _ _
  · rw [hs1]
    simp only [killTerminal, hlive, processExit, hcl, exitTitleOf,
      alookup_adelete_self]
    exact pushExit_head _ _

/-- Witness for C1 amended at a concretely created session. -/
theorem exit_title_rename_semantics_witness :
    alookup (run (initialState [] [] [])
        [Op.create "/tmp/a" "/home/u" true]).terminals 1
      = some ⟨"/tmp/a", "a", []⟩ ∧
    alookup (run (initialState [] [] [])
        [Op.create "/tmp/a" "/home/u" true]).spawnClosures 1 = some "a" ∧
    ((processExit ((renameDirectory (run (initialState [] [] [])
        [Op.create "/tmp/a" "/home/u" true]) "/tmp/a" "Alpha").1) 1 0
        100).recentExits.head? = some ⟨1, "Alpha", 0, 100⟩) := by
  have h := exit_title_rename_semantics
    (run (initialState [] [] []) [Op.create "/tmp/a" "/home/u" true]) 1
    ⟨"/tmp/a", "a", []⟩ "a" "Alpha" 0 100 (by decide) (by decide) (by decide)
    (by decide)
  exact ⟨by decide, by decide, h.1⟩

theorem terminalInput_state (s : MainState) (id : Nat) (d : String) :
    (terminalInput s id d).1 = s := by
  cases halo : alookup s.terminals id <;> simp [terminalInput, halo]

theorem terminalResize_state (s : MainState) (id : Nat) (c r : Nat) :
    (terminalResize s id c r).1 = s := by
  cases halo : alookup s.terminals id <;> simp [terminalResize, halo]

theorem step_nextId (s : MainState) (op : Op) :
    (step s op).nextId = match op with
      | Op.create _ _ _ => s.nextId + 1
      | _ => s.nextId := by
  cases op with
  | create c h ok => cases ok <;> simp [step, createTerminal]
  | kill id =>
      cases halo : alookup s.terminals id <;> simp [step, killTerminal, halo]
  | exitEv id code now =>
      cases halo : alookup s.spawnClosures id <;>
        simp [step, processExit, halo]
  | setOrder ids => simp [step, setTerminalOrder]
  | renameDir c n => simp only [step, renameDirectory]; split <;> rfl
  | input id d => simp [step, terminalInput_state]
  | resizeEv id c r => simp [step, terminalResize_state]

theorem step_nextId_le (s : MainState) (op : Op) :
    s.nextId ≤ (step s op).nextId := by
  rw [step_nextId]
  cases op <;> simp

theorem createdIds_lower_bound (ops : List Op) :
    ∀ s : MainState, ∀ x ∈ createdIds s ops, s.nextId ≤ x := by
  induction ops with
  | nil => intro s x hx; simp [createdIds] at hx
  | cons op rest ih =>
      intro s x hx
      simp only [createdIds, List.mem_append] at hx
      have htail : x ∈ createdIds (step s op) rest → s.nextId ≤ x := by
        intro hr
        exact le_trans (step_nextId_le s op) (ih (step s op) x hr)
      rcases hx with hx | hx
      · cases op with
        | create cwd homedir spawnOk =>
            cases spawnOk with
            | true =>
                simp [createTerminal, resultId] at hx
                omega
            | false => simp [createTerminal, resultId] at hx
        | kill id => simp at hx
        | exitEv id code now => simp at hx
        | setOrder ids => simp at hx
        | renameDir c n => simp at hx
        | input id d => simp at hx
        | resizeEv id c r => simp at hx
      · exact htail hx

theorem createdIds_sorted (ops : List Op) :
    ∀ s : MainState, (createdIds s ops).Pairwise (fun a b => a < b) := by
  induction ops with
  | nil => intro s; simp [createdIds]
  | cons op rest ih =>
      intro s
      simp only [createdIds]
      rw [List.pairwise_append]
      refine ⟨?_, ih (step s op), ?_⟩
      · cases op with
        | create cwd homedir spawnOk =>
            cases spawnOk <;> simp [createTerminal, resultId]
        | kill id => simp
        | exitEv id code now => simp
        | setOrder ids => simp
        | renameDir c n => simp
        | input id d => simp
        | resizeEv id c r => simp
      · intro a ha b hb
        cases op with
        | create cwd homedir spawnOk =>
            cases spawnOk with
            | true =>
                simp [createTerminal, resultId] at ha
                have hb2 := createdIds_lower_bound rest
                  (step s (Op.create cwd homedir true)) b hb
                have hb3 : s.nextId + 1 ≤ b := by
                  simpa [step_nextId] using hb2
                omega
            | false => simp [createTerminal, resultId] at ha
        | kill id => simp at ha
        | exitEv id code now => simp at ha
        | setOrder ids => simp at ha
        | renameDir c n => simp at ha
        | input id d => simp at ha
        | resizeEv id c r => simp at ha

/-- C9: across any sequence of operations within one host-process
lifetime, the ids handed out by successive successful createSession calls
are strictly increasing, and hence no id is ever assigned to two
different sessions — ids are never reused, even after the original
session exits. -/
theorem session_ids_strictly_increasing (ghosts favs : List String)
    (names : List (String × String)) (ops : List Op) :
    (createdIds (initialState ghosts favs names) ops).Pairwise
      (fun a b => a < b) ∧
    (createdIds (initialState ghosts favs names) ops).Nodup :=
  ⟨createdIds_sorted ops _,
    (createdIds_sorted ops _).imp (fun h => Nat.ne_of_lt h)⟩

theorem dropLast_cons_of_ne_nil {α : Type} (a : α) (l : List α)
    (h : l ≠ []) : (a :: l).dropLast = a :: l.dropLast := by
  cases l with
  | nil => exact absurd rfl h
  | cons b m => exact List.dropLast_cons₂

theorem pushExit_take (l : List ExitRecord) (r : ExitRecord) :
    pushExit (l.take MAX_RECENT_EXITS) r = (r :: l).take MAX_RECENT_EXITS := by
  have hM : 0 < MAX_RECENT_EXITS := by decide
  simp only [pushExit]
  split
  · rename_i hlt
    have hlen : MAX_RECENT_EXITS ≤ l.length := by
      simp only [List.length_cons, List.length_take] at hlt
      omega
    have hne : l.take MAX_RECENT_EXITS ≠ [] := by
      apply List.ne_nil_of_length_pos
      simp only [List.length_take]
      omega
    have htk : (l.take MAX_RECENT_EXITS).dropLast
        = l.take (MAX_RECENT_EXITS - 1) := by
      rw [List.dropLast_eq_take, List.take_take]
      congr 1
      simp only [List.length_take]
      omega
    rw [dropLast_cons_of_ne_nil _ _ hne, htk, List.take_cons hM]
  · rename_i hng
    have hlen : l.length + 1 ≤ MAX_RECENT_EXITS := by
      simp only [List.length_cons, List.length_take] at hng
      omega
    have h2 : (r :: l).length ≤ MAX_RECENT_EXITS := by
      simp only [List.length_cons]
      omega
    rw [List.take_of_length_le (by omega : l.length ≤ MAX_RECENT_EXITS),
      List.take_of_length_le h2]

theorem step_recentExits_eq (s : MainState) (op : Op)
    (h : ∀ id code now, op ≠ Op.exitEv id code now) :
    (step s op).recentExits = s.recentExits := by
  cases op with
  | create c hd ok => cases ok <;> simp [step, createTerminal]
  | kill id =>
      cases halo : alookup s.terminals id <;> simp [step, killTerminal, halo]
  | exitEv id code now => exact absurd rfl (h id code now)
  | setOrder ids => simp [step, setTerminalOrder]
  | renameDir c n => simp only [step, renameDirectory]; split <;> rfl
  | input id d => simp [step, terminalInput_state]
  | resizeEv id c r => simp [step, terminalResize_state]

theorem run_recentExits (ops : List Op) :
    ∀ (s : MainState) (P : List ExitRecord),
      s.recentExits = P.reverse.take MAX_RECENT_EXITS →
      (run s ops).recentExits
        = ((P ++ pushedRecords s ops).reverse).take MAX_RECENT_EXITS := by
  induction ops with
  | nil =>
      intro s P h
      simpa [run, pushedRecords] using h
  | cons op rest ih =>
      intro s P h
      have hrun : run s (op :: rest) = run (step s op) rest := rfl
      rw [hrun]
      by_cases hex : ∃ id code now, op = Op.exitEv id code now
      · rcases hex with ⟨id, code, now, rfl⟩
        cases hcl : alookup s.spawnClosures id with
        | none =>
            have hstep : step s (Op.exitEv id code now) = s := by
              simp [step, processExit, hcl]
            have hpr : pushedRecords s (Op.exitEv id code now :: rest)
                = pushedRecords (step s (Op.exitEv id code now)) rest := by
              simp [pushedRecords, hcl]
            rw [hpr, hstep]
            exact ih s P h
        | some st =>
            have hrec : (step s (Op.exitEv id code now)).recentExits
                = ((P ++ [(⟨id, exitTitleOf s id st, code, now⟩ : ExitRecord)]).reverse).take
                    MAX_RECENT_EXITS := by
              simp only [step, processExit, hcl]
              rw [h, List.reverse_concat, pushExit_take]
            have hrest := ih (step s (Op.exitEv id code now))
              (P ++ [(⟨id, exitTitleOf s id st, code, now⟩ : ExitRecord)]) hrec
            rw [hrest]
            have hpr : pushedRecords s (Op.exitEv id code now :: rest)
                = (⟨id, exitTitleOf s id st, code, now⟩ : ExitRecord) ::
                    pushedRecords (step s (Op.exitEv id code now)) rest := by
              simp [pushedRecords, hcl]
            rw [hpr]
            congr 2
            rw [List.append_assoc]
            rfl
      · have h2 : ∀ id code now, op ≠ Op.exitEv id code now :=
          fun id code now heq => hex ⟨id, code, now, heq⟩
        have hstepRec : (step s op).recentExits = s.recentExits :=
          step_recentExits_eq s op h2
        have hpr : pushedRecords s (op :: rest)
            = pushedRecords (step s op) rest := by
          cases op <;> simp [pushedRecords]
          exact absurd rfl (h2 _ _ _)
        rw [hpr]
        exact ih (step s op) P (by rw [hstepRec]; exact h)

/-- C4: after every operation sequence (hence after every individual
termination event), the exit history equals the reversal of all pushed
exit records truncated to the 20 most recent ones — so the newest record
is at index 0, records appear strictly most-recent-first by insertion,
the history never exceeds 20 entries, and it is the oldest records that
are dropped when the bound is exceeded. -/
theorem exitHistory_bounded_newest_first (ghosts favs : List String)
    (names : List (String × String)) (ops : List Op) :
    (run (initialState ghosts favs names) ops).recentExits
      = ((pushedRecords (initialState ghosts favs names) ops).reverse).take
          MAX_RECENT_EXITS ∧
    (run (initialState ghosts favs names) ops).recentExits.length
      ≤ MAX_RECENT_EXITS := by
  have h := run_recentExits ops (initialState ghosts favs names) []
    (by simp [initialState])
  simp only [List.nil_append] at h
  refine ⟨h, ?_⟩
  rw [h, List.length_take]
  exact min_le_left _ _

theorem adelete_sublist {κ α : Type} [DecidableEq κ] (l : List (κ × α))
    (k : κ) : (adelete l k).Sublist l := by
  induction l with
  | nil => simp [adelete]
  | cons p rest ih =>
      by_cases hp : p.1 = k
      · simp only [adelete, hp, if_true]
        exact ih.cons p
      · simp only [adelete, hp, if_false]
        exact ih.cons₂ p

theorem isLive_lt_nextId (s : MainState) (hbd : ∀ p ∈ s.terminals, p.1 < s.nextId) :
    ∀ x, isLive s x = true → x < s.nextId := by
  intro x hx
  have hk := (alookup_isSome_iff_mem_keys s.terminals x).mp hx
  rcases List.mem_map.mp hk with ⟨p, hp, hfst⟩
  have := hbd p hp
  omega

theorem isLive_append_iff (A : List (Nat × Terminal)) (k : Nat) (t : Terminal)
    (x : Nat) :
    (alookup (A ++ [(k, t)]) x).isSome = true
      ↔ (alookup A x).isSome = true ∨ k = x := by
  rw [alookup_append]
  cases halo : alookup A x with
  | some w => simp
  | none =>
      by_cases hk : k = x
      · simp [alookup, hk]
      · simp [alookup, hk]

theorem isLive_adelete_iff (A : List (Nat × Terminal)) (k x : Nat) :
    (alookup (adelete A k) x).isSome = true
      ↔ (alookup A x).isSome = true ∧ x ≠ k := by
  by_cases hx : x = k
  · subst hx
    simp [alookup_adelete_self]
  · rw [alookup_adelete_ne A k x (fun h => hx h.symm)]
    simp [hx]

theorem Inv_remove (s s2 : MainState) (id : Nat)
    (ht : s2.terminals = adelete s.terminals id)
    (ho : s2.terminalOrder
      = s.terminalOrder.filter (fun oid => oid ≠ id))
    (hn : s2.nextId = s.nextId) (hInv : Inv s) : Inv s2 := by
  obtain ⟨hbd, hkeys, hord, hmem⟩ := hInv
  refine ⟨?_, ?_, ?_, ?_⟩
  · intro p hp
    rw [ht] at hp
    rw [hn]
    exact hbd p ((adelete_sublist _ _).subset hp)
  · rw [ht]
    exact List.Nodup.sublist ((adelete_sublist s.terminals id).map Prod.fst)
      hkeys
  · rw [ho]
    exact List.Nodup.sublist (List.filter_sublist _) hord
  · intro x
    rw [ho, List.mem_filter]
    simp only [decide_eq_true_eq, isLive, ht]
    rw [isLive_adelete_iff]
    constructor
    · rintro ⟨hx, hne⟩
      exact ⟨(hmem x).mp hx, hne⟩
    · rintro ⟨hx, hne⟩
      exact ⟨(hmem x).mpr hx, hne⟩

theorem inv_step (s : MainState) (op : Op) (hInv : Inv s)
    (hgood : match op with
      | Op.setOrder ids =>
          ∀ id ∈ s.terminals.map Prod.fst, ids.count id = 1
      | _ => True) :
    Inv (step s op) := by
  obtain ⟨hbd, hkeys, hord, hmem⟩ := hInv
  have hlt := isLive_lt_nextId s hbd
  cases op with
  | create cwd homedir spawnOk =>
      cases spawnOk with
      | false =>
          have hstep : step s (Op.create cwd homedir false)
              = { s with nextId := s.nextId + 1 } := by
            simp [step, createTerminal]
          rw [hstep]
          exact ⟨fun p hp => Nat.lt_succ_of_lt (hbd p hp), hkeys, hord,
            fun id => hmem id⟩
      | true =>
          have hstep : step s (Op.create cwd homedir true)
              = { s with
                  nextId := s.nextId + 1,
                  terminals := s.terminals ++
                    [(s.nextId,
                      ⟨(if cwd = "" then homedir else cwd),
                        resolveDirectoryName s.directoryNames
                          (if cwd = "" then homedir else cwd), []⟩)],
                  terminalOrder := s.terminalOrder ++ [s.nextId],
                  spawnClosures := s.spawnClosures ++
                    [(s.nextId,
                      resolveDirectoryName s.directoryNames
                        (if cwd = "" then homedir else cwd))] } := by
            simp [step, createTerminal]
          rw [hstep]
          refine ⟨?_, ?_, ?_, ?_⟩
          · intro p hp
            rcases List.mem_append.mp hp with hp | hp
            · exact Nat.lt_succ_of_lt (hbd p hp)
            · simp at hp
              subst hp
              exact Nat.lt_succ_self _
          · rw [List.map_append, List.nodup_append]
            refine ⟨hkeys, by simp, ?_⟩
            intro x hx hy
            simp at hy
            have hlive : isLive s x = true :=
              (alookup_isSome_iff_mem_keys s.terminals x).mpr hx
            have := hlt x hlive
            omega
          · rw [List.nodup_append]
            refine ⟨hord, by simp, ?_⟩
            intro x hx hy
            simp at hy
            have hlive : isLive s x = true := (hmem x).mp hx
            have := hlt x hlive
            omega
          · intro x
            simp only [isLive]
            rw [List.mem_append, isLive_append_iff]
            constructor
            · rintro (hx | hx)
              · exact Or.inl ((hmem x).mp hx)
              · simp at hx
                exact Or.inr hx.symm
            · rintro (hx | hx)
              · exact Or.inl ((hmem x).mpr hx)
              · simp [hx]
  | kill id =>
      cases halo : alookup s.terminals id with
      | none =>
          have hstep : step s (Op.kill id) = s := by
            simp [step, killTerminal, halo]
          rw [hstep]
          exact ⟨hbd, hkeys, hord, hmem⟩
      | some t =>
          refine Inv_remove s _ id ?_ ?_ ?_ ⟨hbd, hkeys, hord, hmem⟩ <;>
            simp [step, killTerminal, halo]
  | exitEv id code now =>
      cases hcl : alookup s.spawnClosures id with
      | none =>
          have hstep : step s (Op.exitEv id code now) = s := by
            simp [step, processExit, hcl]
          rw [hstep]
          exact ⟨hbd, hkeys, hord, hmem⟩
      | some st =>
          refine Inv_remove s _ id ?_ ?_ ?_ ⟨hbd, hkeys, hord, hmem⟩ <;>
            simp [step, processExit, hcl]
  | setOrder ids =>
      have hstep : step s (Op.setOrder ids)
          = { s with terminalOrder := ids.filter (fun id => isLive s id) } :=
        rfl
      rw [hstep]
      refine ⟨hbd, hkeys, ?_, ?_⟩
      · rw [List.nodup_iff_count_le_one]
        intro a
        by_cases ha : isLive s a = true
        · rw [List.count_filter ha]
          have hk := (alookup_isSome_iff_mem_keys s.terminals a).mp ha
          rw [hgood a hk]
        · have hnm : a ∉ ids.filter (fun id => isLive s id) := by
            intro hm
            exact ha (List.mem_filter.mp hm).2
          rw [List.count_eq_zero_of_not_mem hnm]
          omega
      · intro x
        constructor
        · intro hx
          exact (List.mem_filter.mp hx).2
        · intro hx
          refine List.mem_filter.mpr ⟨?_, hx⟩
          have hk := (alookup_isSome_iff_mem_keys s.terminals x).mp hx
          have hc := hgood x hk
          have hpos : 0 < ids.count x := by omega
          exact List.count_pos_iff.mp hpos
  | renameDir c n =>
      have hT : (step s (Op.renameDir c n)).terminals = s.terminals := by
        simp only [step, renameDirectory]
        split <;> rfl
      have hO : (step s (Op.renameDir c n)).terminalOrder
          = s.terminalOrder := by
        simp only [step, renameDirectory]
        split <;> rfl
      have hN : (step s (Op.renameDir c n)).nextId = s.nextId := by
        simp only [step, renameDirectory]
        split <;> rfl
      refine ⟨?_, ?_, ?_, ?_⟩
      · intro p hp
        rw [hT] at hp
        rw [hN]
        exact hbd p hp
      · rw [hT]; exact hkeys
      · rw [hO]; exact hord
      · intro x
        rw [hO]
        simp only [isLive, hT]
        exact hmem x
  | input id d =>
      have hstep : step s (Op.input id d) = s := terminalInput_state s id d
      rw [hstep]
      exact ⟨hbd, hkeys, hord, hmem⟩
  | resizeEv id c r =>
      have hstep : step s (Op.resizeEv id c r) = s := terminalResize_state s id c r
      rw [hstep]
      exact ⟨hbd, hkeys, hord, hmem⟩

theorem inv_run (ops : List Op) :
    ∀ s : MainState, Inv s → goodOrders s ops → Inv (run s ops) := by
  induction ops with
  | nil => intro s h _; exact h
  | cons op rest ih =>
      intro s h hg
      simp only [goodOrders] at hg
      exact ih (step s op) (inv_step s op h hg.1) hg.2

/-- C2 counterexample: a set-terminal-order request listing a live id
twice is stored as-is (only dead ids are filtered out), so the order
index afterwards contains a live id twice — the claimed invariant fails
for arbitrary reorder arguments. -/
theorem orderIndex_duplicate_counterexample :
    (run (initialState [] [] [])
        [Op.create "/tmp/a" "/h" true, Op.setOrder [1, 1]]).terminalOrder
      = [1, 1] ∧
    isLive (run (initialState [] [] [])
        [Op.create "/tmp/a" "/h" true, Op.setOrder [1, 1]]) 1 = true ∧
    ¬ orderExact (run (initialState [] [] [])
        [Op.create "/tmp/a" "/h" true, Op.setOrder [1, 1]]) := by
  have ho : (run (initialState [] [] [])
      [Op.create "/tmp/a" "/h" true, Op.setOrder [1, 1]]).terminalOrder
      = [1, 1] := by decide
  refine ⟨ho, by decide, fun h => ?_⟩
  have h1 := h.1
  rw [ho] at h1
  exact (by decide : ¬ ([1, 1] : List Nat).Nodup) h1

/-- C2 amended: for every operation sequence in which each
set-terminal-order request lists each then-live id exactly once (dead
ids may appear and are dropped), the order index afterwards contains
exactly the ids of the currently live sessions, each exactly once, and no
dead or ghost ids; with fully arbitrary reorder arguments, duplicates of
live ids and omissions of live ids persist. -/
theorem orderIndex_exact_for_wellformed_reorders (ghosts favs : List String)
    (names : List (String × String)) (ops : List Op)
    (hgood : goodOrders (initialState ghosts favs names) ops) :
    orderExact (run (initialState ghosts favs names) ops) := by
  have hInv : Inv (initialState ghosts favs names) := by
    refine ⟨?_, ?_, ?_, ?_⟩ <;> simp [initialState, isLive, alookup]
  have h := inv_run ops _ hInv hgood
  exact ⟨h.2.2.1, h.2.2.2⟩

/-- Witness for C2 amended: a create followed by a well-formed reorder. -/
theorem orderIndex_exact_witness :
    goodOrders (initialState [] [] [])
      [Op.create "/tmp/a" "/h" true, Op.setOrder [9, 1]] ∧
    orderExact (run (initialState [] [] [])
      [Op.create "/tmp/a" "/h" true, Op.setOrder [9, 1]]) := by
  have hk : (step (initialState [] [] [])
      (Op.create "/tmp/a" "/h" true)).terminals.map Prod.fst = [1] := by
    decide
  have hg : goodOrders (initialState [] [] [])
      [Op.create "/tmp/a" "/h" true, Op.setOrder [9, 1]] := by
    refine ⟨trivial, ?_, trivial⟩
    intro id hid
    rw [hk] at hid
    simp at hid
    subst hid
    decide
  exact ⟨hg, orderIndex_exact_for_wellformed_reorders [] [] [] _ hg⟩

end TermParty
